import Mathlib

/-!
Shallow embedding of `src/main.py` of sg-taxi-tracker: point-to-planning-area
assignment, count aggregation with top-K selection, and the bounded-concurrency
description-enrichment stage, together with proofs of the specified properties.

External collaborators (the HTTP APIs, the shapely geometry library, the pandas
grouping/sorting primitives, the thread pool) are modelled at their observable
boundary: a geometry is an opaque value carrying its Python truthiness and its
containment test; an HTTP call is a value describing its outcome; the executor
is a step relation on a scheduler state.
-/

/-- A taxi observation: `df` rows carry `lat` and `long` columns
(`fetch_taxi_availability` builds them from `[long, lat]` coordinate pairs). -/
structure Point where
  lat : ℚ
  long : ℚ
deriving DecidableEq, Repr

/-- An opaque shapely geometry, as `get_planning_area` observes it: its Python
truthiness (`bool(geom)` is `not geom.is_empty`, so an empty geometry is falsy)
and its point-containment test `geom.contains(point)`. -/
structure Geom where
  truthy : Bool
  containsPt : Point → Bool

/-- One row of the planning-areas dataframe: the area name `pln_area_n` and the
`geojson` column after `extract_shape` mapped over it — `none` when
`shape(json.loads(geojson))` raised and `extract_shape` returned `None`. -/
structure Region where
  pln_area_n : String
  geojson : Option Geom

/-- Embedding of `get_planning_area(row, areas)` (src/main.py lines 73-79):
iterate the areas in order; return the name of the first area whose `geojson`
is truthy (non-`None`, non-empty) and contains the point, else `None`. -/
def get_planning_area (row : Point) (areas : List Region) : Option String :=
  match areas with
  | [] => none
  | area :: rest =>
      if (match area.geojson with
          | some g => g.truthy && g.containsPt row
          | none => false) then
        some area.pln_area_n
      else get_planning_area row rest

/-- The loop guard of `get_planning_area`: Python's
`area["geojson"] and area["geojson"].contains(point)`. -/
def regionMatches (area : Region) (row : Point) : Bool :=
  match area.geojson with
  | some g => g.truthy && g.containsPt row
  | none => false

/-- Embedding of the `planning_area` column:
`df.apply(lambda row: get_planning_area(row, areas), axis=1)` (line 122). -/
def planning_area_col (areas : List Region) (df : List Point) : List (Option String) :=
  df.map (fun row => get_planning_area row areas)

/-- The distinct values of a column in first-occurrence order: the key order of
the hash-table grouping underlying `Series.value_counts` (insertion order =
first occurrence). -/
def firstOccur : List String → List String
  | [] => []
  | v :: xs => v :: (firstOccur xs).filter (fun w => w ≠ v)

/-- The per-value counts of `value_counts` before sorting: each distinct
non-null value of the column, in first-occurrence order, with the number of
rows holding it (nulls are dropped by `value_counts`). -/
def groupCounts (xs : List (Option String)) : List (String × ℕ) :=
  (firstOccur (xs.filterMap id)).map (fun v => (v, xs.count (some v)))

/-- Insert an entry into a list already sorted by count descending, after every
entry with a greater-or-equal count (so earlier entries keep priority on
ties). -/
def insertDesc (a : String × ℕ) : List (String × ℕ) → List (String × ℕ)
  | [] => [a]
  | b :: l => if b.2 < a.2 then a :: b :: l else b :: insertDesc a l

/-- Stable sort by count descending, modelling the descending count sort of
`Series.value_counts`; ties keep first-occurrence (insertion) order, the
deterministic tie-break the spec fixes for the grouping structure. -/
def sortDesc (l : List (String × ℕ)) : List (String × ℕ) :=
  l.foldl (fun acc a => insertDesc a acc) []

/-- Embedding of `df["planning_area"].value_counts()` (line 124): the distinct
non-null values with their counts, sorted by count descending. -/
def value_counts (xs : List (Option String)) : List (String × ℕ) :=
  sortDesc (groupCounts xs)

/-- Embedding of `top_ten = df["planning_area"].value_counts().head(top_k)`
(line 124). -/
def top_ten (areas : List Region) (df : List Point) (top_k : ℕ) : List (String × ℕ) :=
  (value_counts (planning_area_col areas df)).take top_k

/-- Arithmetic mean of a list of rationals, as `DataFrame.mean` computes it
column-wise on a non-empty selection. -/
def mean (xs : List ℚ) : ℚ := xs.sum / xs.length

/-- Embedding of the Google-Maps link f-string (line 137), a pure function of
the centroid. -/
def gmap_link (lat long : ℚ) : String :=
  "https://www.google.com/maps/search/?api=1&query=" ++ toString lat ++ "," ++ toString long

/-- One element of the `area_info` list built at lines 133-138:
`(idx, area, count, lat, long, gmap_link)`. -/
structure AreaInfo where
  idx : ℕ
  area : String
  cnt : ℕ
  lat : ℚ
  long : ℚ
  link : String
deriving DecidableEq, Repr

/-- Embedding of the `area_info` construction (lines 133-138): enumerate the
top-K entries from 1; for each, the centroid is the column-wise mean of the
rows assigned to that area, and a maps link is derived from it. -/
def area_info (areas : List Region) (df : List Point) (top_k : ℕ) : List AreaInfo :=
  (top_ten areas df top_k).enum.map (fun p =>
    let group := df.filter (fun row => get_planning_area row areas == some p.2.1)
    let lat := mean (group.map Point.lat)
    let long := mean (group.map Point.long)
    { idx := p.1 + 1, area := p.2.1, cnt := p.2.2, lat := lat, long := long,
      link := gmap_link lat long })

/-- Outcome of one `requests.get` call to the reverse-geocoding service, as
`get_area_description` observes it: either a response carrying a status code
and the result of parsing its JSON body for `display_name` (parsing may itself
raise, and the field may be absent), or an exception raised by the call
(timeout, transport failure, ...). -/
inductive CallResult where
  | response (status : ℕ) (body : Except String (Option String))
  | failure (msg : String)
deriving Repr

/-- Embedding of `get_area_description(lat, long)` (src/main.py lines 82-100):
on a 200 response return `data.get("display_name", "Unknown")`; on any other
status return `"Unknown"` after a warning; any exception (timeout, transport
error, JSON parse error) is caught and also yields `"Unknown"`. -/
def get_area_description (r : CallResult) : String :=
  match r with
  | .response status body =>
      if status == 200 then
        match body with
        | .ok d => d.getD "Unknown"
        | .error _ => "Unknown"
      else "Unknown"
  | .failure _ => "Unknown"

/-- Whether the lookup failed: a raised exception (timeout, transport error),
a non-200 status, or an unparseable 200 body. -/
def lookup_failed (r : CallResult) : Bool :=
  match r with
  | .response status body => status != 200 || (match body with | .ok _ => false | .error _ => true)
  | .failure _ => true

/-- The result of one submitted future, as `future.result()` reports it: the
callable's return value, or the exception it raised. `get_area_description`
never raises, so its future always yields `.ok` of its return value. -/
def submit_lookup (r : CallResult) : Except String String :=
  .ok (get_area_description r)

/-- Embedding of the per-future handling at lines 160-163:
`descriptions[idx] = future.result()`, or `f"Error: ..."` if the future
raised. -/
def handle_future (r : Except String String) : String :=
  match r with
  | .ok s => s
  | .error e => "Error: " ++ e

/-- Embedding of the `as_completed` loop (lines 143, 158-164): `descriptions`
starts as `[""] * n`; futures complete in some order `order` of their indices,
and each completion writes its handled result into its own slot. -/
def run_futures (results : ℕ → Except String String) (order : List ℕ) (n : ℕ) : List String :=
  order.foldl (fun ds i => ds.set i (handle_future (results i))) (List.replicate n "")

/-- Embedding of the whole enrichment stage followed by the
`zip(area_info, descriptions)` pairing (lines 143-168): one future per entry
(keyed by its index in `future_to_idx`), results written back by index in
completion order, each entry paired with the description in its slot.
`outcomes i` is the external world's response to entry `i`'s lookup. -/
def enrich (outcomes : ℕ → CallResult) (info : List AreaInfo) (order : List ℕ) :
    List (AreaInfo × String) :=
  info.zip (run_futures (fun i => submit_lookup (outcomes i)) order info.length)

/-- The lookup invocations submitted to the executor (line 155): one
`get_area_description(lat, long)` call per entry of `area_info`. -/
def lookups_invoked (info : List AreaInfo) : List (ℚ × ℚ) :=
  info.map (fun t => (t.lat, t.long))

/-- Outcome of the planning-areas fetch, as `fetch_planning_areas` observes
it: either an exception / non-success status / malformed top-level payload
(everything its `except` clause catches), or a list of records, each a name
with the outcome of parsing its geojson payload. -/
def fetch_planning_areas (resp : Except String (List (String × Except String Geom))) :
    Except ℕ (List Region) :=
  match resp with
  | .error _ => .error 1
  | .ok records =>
      .ok (records.map (fun rec =>
        { pln_area_n := rec.1, geojson := match rec.2 with | .ok g => some g | .error _ => none }))

/-- Outcome of the taxi-availability fetch (lines 57-70): a fatal `Exit(1)` on
any exception or non-success status, else the coordinate pairs `[long, lat]`
loaded into `long`/`lat` columns. -/
def fetch_taxi_availability (resp : Except String (List (ℚ × ℚ))) : Except ℕ (List Point) :=
  match resp with
  | .error _ => .error 1
  | .ok coords => .ok (coords.map (fun c => { long := c.1, lat := c.2 }))

/-- Embedding of the `main` pipeline (lines 106-176): fetch areas, fetch
points (each fatal on failure, exiting with code 1 and producing no output),
assign, aggregate to `area_info`, enrich concurrently, and hand the enriched
rows to presentation. -/
def main_pipeline (areasResp : Except String (List (String × Except String Geom)))
    (taxiResp : Except String (List (ℚ × ℚ))) (outcomes : ℕ → CallResult)
    (order : List ℕ) (top_k : ℕ) : Except ℕ (List (AreaInfo × String)) := do
  let areas ← fetch_planning_areas areasResp
  let df ← fetch_taxi_availability taxiResp
  let info := area_info areas df top_k
  pure (enrich outcomes info order)

/-- State of the enrichment thread pool: tasks not yet started, tasks whose
lookup is currently in flight on a worker, and finished tasks. -/
structure ExecState where
  pending : List ℕ
  running : List ℕ
  done : List ℕ
deriving DecidableEq, Repr

/-- One scheduling step of `ThreadPoolExecutor(max_workers=W)`: a pending task
may start only while fewer than `W` tasks are in flight (the pool never runs
more threads than `max_workers`); a running task may finish at any time. -/
inductive ExecStep (W : ℕ) : ExecState → ExecState → Prop
  | start (p f d : List ℕ) (i : ℕ) (hm : i ∈ p) (hw : f.length < W) :
      ExecStep W ⟨p, f, d⟩ ⟨p.erase i, i :: f, d⟩
  | finish (p f d : List ℕ) (i : ℕ) (hm : i ∈ f) :
      ExecStep W ⟨p, f, d⟩ ⟨p, f.erase i, i :: d⟩

/-- States the executor can reach from a given state by scheduling steps. -/
inductive ExecReachable (W : ℕ) (s₀ : ExecState) : ExecState → Prop
  | refl : ExecReachable W s₀ s₀
  | step {s s' : ExecState} : ExecReachable W s₀ s → ExecStep W s s' → ExecReachable W s₀ s'

/-- The executor's initial state for an enrichment batch of `n` entries: all
`n` lookup tasks queued, none in flight, none done. -/
def exec_start (n : ℕ) : ExecState :=
  { pending := List.range n, running := [], done := [] }

/-! ### Demo fixtures used by witness theorems -/

/-- Axis-aligned unit square at the origin, the spec's region "A" covering
(0,0)-(1,1), as an opaque geometry. -/
def demoGeomA : Geom :=
  { truthy := true,
    containsPt := fun p => 0 ≤ p.long && p.long ≤ 1 && 0 ≤ p.lat && p.lat ≤ 1 }

/-- Axis-aligned square covering (2,2)-(3,3), the spec's region "B". -/
def demoGeomB : Geom :=
  { truthy := true,
    containsPt := fun p => 2 ≤ p.long && p.long ≤ 3 && 2 ≤ p.lat && p.lat ≤ 3 }

/-- The spec's demo region set. -/
def demoAreas : List Region :=
  [{ pln_area_n := "A", geojson := some demoGeomA },
   { pln_area_n := "B", geojson := some demoGeomB }]

/-- The spec's demo point set: two points in A, one in B, one in no region. -/
def demoDf : List Point :=
  [{ lat := 0, long := 0 }, { lat := 1, long := 1 },
   { lat := 3, long := 3 }, { lat := 9, long := 9 }]

/-- A two-entry ranked batch for enrichment witnesses. -/
def demoInfo : List AreaInfo :=
  [{ idx := 1, area := "A", cnt := 2, lat := 1/2, long := 1/2, link := "" },
   { idx := 2, area := "B", cnt := 1, lat := 5/2, long := 5/2, link := "" }]

/-- Demo external lookup outcomes: entry 0's call times out, every other
entry's call succeeds with a display name. -/
def demoOutcomes : ℕ → CallResult := fun i =>
  if i = 0 then CallResult.failure "timeout"
  else CallResult.response 200 (Except.ok (some "Bishan"))

/-! ### Helper lemmas: index-addressed writes in completion order -/

theorem foldl_set_length (g : ℕ → String) (order : List ℕ) (ds : List String) :
    (order.foldl (fun ds i => ds.set i (g i)) ds).length = ds.length := by
  induction order generalizing ds with
  | nil => rfl
  | cons j rest ih => simp only [List.foldl_cons]; rw [ih, List.length_set]

theorem foldl_set_getElem_of_not_mem (g : ℕ → String) (order : List ℕ) (ds : List String)
    (i : ℕ) (h : i ∉ order) :
    (order.foldl (fun ds j => ds.set j (g j)) ds)[i]? = ds[i]? := by
  induction order generalizing ds with
  | nil => rfl
  | cons j rest ih =>
      simp only [List.foldl_cons]
      rw [ih _ (fun hm => h (List.mem_cons_of_mem _ hm))]
      apply List.getElem?_set_ne
      intro hji
      subst hji
      exact h (List.mem_cons_self j rest)

theorem foldl_set_getElem_of_mem (g : ℕ → String) (order : List ℕ) (ds : List String)
    (i : ℕ) (h : i ∈ order) (hlt : i < ds.length) :
    (order.foldl (fun ds j => ds.set j (g j)) ds)[i]? = some (g i) := by
  induction order generalizing ds with
  | nil => cases h
  | cons j rest ih =>
      simp only [List.foldl_cons]
      by_cases hm : i ∈ rest
      · exact ih _ hm (by rw [List.length_set]; exact hlt)
      · have hij : i = j := by
          rcases List.mem_cons.mp h with h' | h'
          · exact h'
          · exact absurd h' hm
        subst hij
        rw [foldl_set_getElem_of_not_mem _ _ _ _ hm]
        exact List.getElem?_set_eq_of_lt _ hlt

theorem run_futures_length (results : ℕ → Except String String) (order : List ℕ) (n : ℕ) :
    (run_futures results order n).length = n := by
  unfold run_futures
  rw [foldl_set_length, List.length_replicate]

theorem run_futures_getElem (results : ℕ → Except String String) (order : List ℕ) (n : ℕ)
    (hperm : order.Perm (List.range n)) (i : ℕ) (hi : i < n) :
    (run_futures results order n)[i]? = some (handle_future (results i)) := by
  unfold run_futures
  exact foldl_set_getElem_of_mem _ _ _ _
    (hperm.mem_iff.mpr (List.mem_range.mpr hi))
    (by rw [List.length_replicate]; exact hi)

/-- Full characterization of the enrichment stage: same length as the input,
and slot `i` pairs entry `i` with the description computed from entry `i`'s
own lookup, for any completion order of the futures. -/
theorem enrich_spec (outcomes : ℕ → CallResult) (info : List AreaInfo)
    (order : List ℕ) (hperm : order.Perm (List.range info.length)) :
    (enrich outcomes info order).length = info.length ∧
    ∀ i : ℕ, (enrich outcomes info order)[i]? =
      (info[i]?).map (fun e => (e, get_area_description (outcomes i))) := by
  constructor
  · unfold enrich
    rw [List.length_zip, run_futures_length]
    exact Nat.min_self _
  · intro i
    by_cases hi : i < info.length
    · have h1 : info[i]? = some info[i] := List.getElem?_eq_getElem hi
      rw [h1]
      apply List.getElem?_zip_eq_some.mpr
      refine ⟨h1, ?_⟩
      rw [run_futures_getElem _ _ _ hperm i hi]
      rfl
    · have h1 : info[i]? = none := List.getElem?_eq_none (Nat.le_of_not_lt hi)
      rw [h1]
      refine (List.getElem?_eq_none ?_).trans rfl
      unfold enrich
      rw [List.length_zip, run_futures_length, Nat.min_self]
      exact Nat.le_of_not_lt hi

/-- Any failed lookup (raised exception, non-200 status, or unparseable 200
body) makes `get_area_description` return the placeholder. -/
theorem get_area_description_of_failed (r : CallResult) (h : lookup_failed r = true) :
    get_area_description r = "Unknown" := by
  cases r with
  | failure m => rfl
  | response status body =>
      by_cases hs : status = 200
      · subst hs
        cases body with
        | ok d =>
            exfalso
            simp [lookup_failed] at h
        | error e => rfl
      · simp only [get_area_description]
        rw [if_neg (by simpa using hs)]

/-! ### C1 -/

/-- C1: for every ranked batch given to the enrichment stage and every
completion order of the concurrent lookups, the output has the same length as
the input and pairs entry `i` with the description computed from entry `i`'s
lookup — so `output[i].aggregate = input[i]` for every `i`, regardless of the
order in which the concurrent tasks complete. -/
theorem enrich_length_and_index_aligned (outcomes : ℕ → CallResult) (info : List AreaInfo)
    (order : List ℕ) (hperm : order.Perm (List.range info.length)) :
    (enrich outcomes info order).length = info.length ∧
    ∀ i : ℕ, (enrich outcomes info order)[i]? =
      (info[i]?).map (fun e => (e, get_area_description (outcomes i))) :=
  enrich_spec outcomes info order hperm

/-- Witness for C1: a two-entry batch whose futures complete out of order
(entry 1 before entry 0) still stores each description at its own index. -/
theorem enrich_length_and_index_aligned_witness :
    (enrich demoOutcomes demoInfo [1, 0]).length = 2 ∧
    (enrich demoOutcomes demoInfo [1, 0])[1]? =
      some ({ idx := 2, area := "B", cnt := 1, lat := 5/2, long := 5/2, link := "" }, "Bishan") := by
  have h := enrich_length_and_index_aligned demoOutcomes demoInfo [1, 0] (by decide)
  refine ⟨h.1, ?_⟩
  rw [h.2 1]
  rfl

/-! ### C5 -/

/-- C5: in any enrichment batch, an entry whose lookup fails (timeout,
non-2xx, or any exception) gets the failure placeholder as its description;
every sibling entry still gets the description of its own lookup, and the
batch completes with one output slot per input entry. -/
theorem enrich_failure_isolated (outcomes : ℕ → CallResult) (info : List AreaInfo)
    (order : List ℕ) (j : ℕ) (hperm : order.Perm (List.range info.length))
    (hj : j < info.length) (hfail : lookup_failed (outcomes j) = true) :
    (enrich outcomes info order).length = info.length ∧
    (enrich outcomes info order)[j]? = some (info[j], "Unknown") ∧
    ∀ i : ℕ, (enrich outcomes info order)[i]? =
      (info[i]?).map (fun e => (e, get_area_description (outcomes i))) := by
  obtain ⟨hlen, hidx⟩ := enrich_spec outcomes info order hperm
  refine ⟨hlen, ?_, hidx⟩
  rw [hidx j, get_area_description_of_failed _ hfail, List.getElem?_eq_getElem hj]
  rfl

/-- Witness for C5: with entry 0's lookup timing out and entry 1's lookup
succeeding, entry 0 gets the placeholder and entry 1 keeps its description. -/
theorem enrich_failure_isolated_witness :
    (enrich demoOutcomes demoInfo [1, 0]).length = 2 ∧
    (enrich demoOutcomes demoInfo [1, 0])[0]? =
      some ({ idx := 1, area := "A", cnt := 2, lat := 1/2, long := 1/2, link := "" }, "Unknown") ∧
    (enrich demoOutcomes demoInfo [1, 0])[1]? =
      some ({ idx := 2, area := "B", cnt := 1, lat := 5/2, long := 5/2, link := "" }, "Bishan") := by
  have h := enrich_failure_isolated demoOutcomes demoInfo [1, 0] 0 (by decide) (by decide) (by decide)
  refine ⟨h.1, h.2.1, ?_⟩
  rw [h.2.2 1]
  rfl

/-! ### C10 -/

/-- C10: the per-entry lookup is total — for every outcome of the external
call its future yields `.ok` of the returned string and never an exception, so
the caller's per-future `except` branch (the `Error: ...` description) is
unreachable; every failure mode maps to the single placeholder `"Unknown"`,
and a 200 response yields its display name (or `"Unknown"` when absent). -/
theorem get_area_description_total (r : CallResult) :
    submit_lookup r = Except.ok (get_area_description r) ∧
    (∀ e : String, submit_lookup r ≠ Except.error e) ∧
    handle_future (submit_lookup r) = get_area_description r ∧
    (lookup_failed r = true → get_area_description r = "Unknown") ∧
    (∀ d : String, r = CallResult.response 200 (Except.ok (some d)) →
      get_area_description r = d) ∧
    (r = CallResult.response 200 (Except.ok none) → get_area_description r = "Unknown") := by
  refine ⟨rfl, fun e h => Except.noConfusion h, rfl, get_area_description_of_failed r, ?_, ?_⟩
  · intro d h
    subst h
    rfl
  · intro h
    subst h
    rfl

/-- Witness for C10: a timed-out call maps to the placeholder. -/
theorem get_area_description_total_witness :
    get_area_description (CallResult.failure "timeout") = "Unknown" :=
  (get_area_description_total (CallResult.failure "timeout")).2.2.2.1 rfl

/-! ### Assignment: first-match characterization -/

/-- Unfolding of the containment loop one area at a time: the loop guard is
`regionMatches`. -/
theorem get_planning_area_cons (row : Point) (a : Region) (rest : List Region) :
    get_planning_area row (a :: rest) =
      if regionMatches a row then some a.pln_area_n else get_planning_area row rest := rfl

/-- The scan returns `some name` exactly when some area matches the point,
`name` is the first matching area's name, and every earlier area fails the
guard. -/
theorem gpa_some_iff (row : Point) (areas : List Region) (name : String) :
    get_planning_area row areas = some name ↔
      ∃ pre a post, areas = pre ++ a :: post ∧ name = a.pln_area_n ∧
        regionMatches a row = true ∧ ∀ b ∈ pre, regionMatches b row = false := by
  induction areas with
  | nil =>
      constructor
      · intro h
        cases h
      · rintro ⟨pre, a, post, h, -⟩
        exact absurd h (by simp)
  | cons x rest ih =>
      rw [get_planning_area_cons]
      cases hmx : regionMatches x row with
      | true =>
          rw [if_pos rfl]
          constructor
          · intro h
            injection h with h
            exact ⟨[], x, rest, rfl, h.symm, hmx, by simp⟩
          · rintro ⟨pre, a, post, heq, hname, hma, hpre⟩
            cases pre with
            | nil =>
                injection heq with h1 h2
                subst h1
                rw [hname]
            | cons p pre' =>
                injection heq with h1 h2
                subst h1
                rw [hpre x (List.mem_cons_self x pre')] at hmx
                cases hmx
      | false =>
          rw [if_neg (by simp), ih]
          constructor
          · rintro ⟨pre, a, post, heq, hname, hma, hpre⟩
            refine ⟨x :: pre, a, post, by rw [heq, List.cons_append], hname, hma, ?_⟩
            intro b hb
            rcases List.mem_cons.mp hb with hb | hb
            · rw [hb, hmx]
            · exact hpre b hb
          · rintro ⟨pre, a, post, heq, hname, hma, hpre⟩
            cases pre with
            | nil =>
                injection heq with h1 h2
                subst h1
                rw [hma] at hmx
                cases hmx
            | cons p pre' =>
                injection heq with h1 h2
                subst h1
                exact ⟨pre', a, post, h2, hname, hma,
                  fun b hb => hpre b (List.mem_cons_of_mem _ hb)⟩

/-- The scan returns `none` exactly when no area matches the point. -/
theorem gpa_none_iff (row : Point) (areas : List Region) :
    get_planning_area row areas = none ↔ ∀ a ∈ areas, regionMatches a row = false := by
  induction areas with
  | nil => simp [get_planning_area]
  | cons x rest ih =>
      rw [get_planning_area_cons]
      cases hmx : regionMatches x row with
      | true =>
          rw [if_pos rfl]
          constructor
          · intro h
            cases h
          · intro h
            rw [h x (List.mem_cons_self x rest)] at hmx
            cases hmx
      | false =>
          rw [if_neg (by simp), ih]
          constructor
          · intro h b hb
            rcases List.mem_cons.mp hb with hb | hb
            · rw [hb, hmx]
            · exact h b hb
          · intro h b hb
            exact h b (List.mem_cons_of_mem _ hb)

/-- A region whose geometry failed to parse (`None` in the `geojson` column)
or whose geometry is empty (falsy) never passes the loop guard. -/
theorem regionMatches_dead (a : Region) (row : Point)
    (h : a.geojson = none ∨ ∃ g, a.geojson = some g ∧ g.truthy = false) :
    regionMatches a row = false := by
  rcases h with h | ⟨g, hg, ht⟩
  · simp [regionMatches, h]
  · simp [regionMatches, hg, ht]

/-- Removing a never-matching region from anywhere in the set leaves the
scan's result unchanged: such a region is kept but skipped. -/
theorem gpa_skip (row : Point) (pre post : List Region) (a : Region)
    (h : regionMatches a row = false) :
    get_planning_area row (pre ++ a :: post) = get_planning_area row (pre ++ post) := by
  induction pre with
  | nil =>
      rw [List.nil_append, List.nil_append, get_planning_area_cons, if_neg (by simp [h])]
  | cons x pre' ih =>
      rw [List.cons_append, List.cons_append, get_planning_area_cons,
        get_planning_area_cons, ih]

/-! ### C3 -/

/-- C3: the assignment returns the name of the first region in fetched order
whose geometry contains the point, and `none` when no region contains it; a
region whose geometry failed to parse or is empty never passes the guard, and
such a region is kept in the set but skipped — deleting it leaves every
point's assignment unchanged. -/
theorem assignment_first_match (row : Point) :
    (∀ (areas : List Region) (name : String),
       get_planning_area row areas = some name ↔
         ∃ pre a post, areas = pre ++ a :: post ∧ name = a.pln_area_n ∧
           regionMatches a row = true ∧ ∀ b ∈ pre, regionMatches b row = false) ∧
    (∀ areas : List Region,
       get_planning_area row areas = none ↔ ∀ a ∈ areas, regionMatches a row = false) ∧
    (∀ a : Region, (a.geojson = none ∨ ∃ g, a.geojson = some g ∧ g.truthy = false) →
       regionMatches a row = false) ∧
    (∀ (pre post : List Region) (a : Region), regionMatches a row = false →
       get_planning_area row (pre ++ a :: post) = get_planning_area row (pre ++ post)) :=
  ⟨fun areas name => gpa_some_iff row areas name,
   fun areas => gpa_none_iff row areas,
   fun a h => regionMatches_dead a row h,
   fun pre post a h => gpa_skip row pre post a h⟩

/-- Witness for C3: with an unparseable region and an empty-geometry region
listed before region A, the point (0.5, 0.5) is still assigned to A. -/
theorem assignment_first_match_witness :
    get_planning_area { lat := 0, long := 1 }
      [{ pln_area_n := "Dead", geojson := none },
       { pln_area_n := "Empty", geojson := some { truthy := false, containsPt := fun _ => true } },
       { pln_area_n := "A", geojson := some demoGeomA }] = some "A" :=
  ((assignment_first_match { lat := 0, long := 1 }).1 _ "A").mpr
    ⟨[{ pln_area_n := "Dead", geojson := none },
      { pln_area_n := "Empty", geojson := some { truthy := false, containsPt := fun _ => true } }],
     { pln_area_n := "A", geojson := some demoGeomA }, [], rfl, rfl, by decide, by decide⟩

/-! ### Counting: the aggregate counts partition the input points -/

/-- Unfolding of the first-occurrence dedup, one value at a time. -/
theorem firstOccur_cons (v : String) (xs : List String) :
    firstOccur (v :: xs) = v :: (firstOccur xs).filter (fun w => w ≠ v) := rfl

/-- First-occurrence dedup commutes with filtering the column. -/
theorem firstOccur_filter_comm (p : String → Bool) (xs : List String) :
    firstOccur (xs.filter p) = (firstOccur xs).filter p := by
  induction xs with
  | nil => rfl
  | cons w xs ih =>
      cases hw : p w with
      | true =>
          rw [List.filter_cons_of_pos hw, firstOccur_cons, firstOccur_cons,
            List.filter_cons_of_pos hw, ih, List.filter_filter, List.filter_filter]
          congr 1
          apply List.filter_congr
          intro x _
          by_cases hxw : x = w
          · subst hxw
            simp [hw]
          · simp [hxw]
      | false =>
          rw [List.filter_cons_of_neg (by simp [hw]), firstOccur_cons,
            List.filter_cons_of_neg (by simp [hw]), ih, List.filter_filter]
          apply List.filter_congr
          intro x _
          by_cases hxw : x = w
          · subst hxw
            simp [hw]
          · simp [hxw]

/-- Dedup of a cons is the head followed by the dedup of the tail scrubbed of
that head, matching hash-table insertion semantics. -/
theorem firstOccur_cons_filter (v : String) (xs : List String) :
    firstOccur (v :: xs) = v :: firstOccur (xs.filter (fun w => w ≠ v)) := by
  rw [firstOccur_cons, firstOccur_filter_comm]

/-- Membership in the first-occurrence dedup is membership in the column. -/
theorem firstOccur_mem (ys : List String) (a : String) : a ∈ firstOccur ys ↔ a ∈ ys := by
  induction ys with
  | nil => exact Iff.rfl
  | cons v xs ih =>
      rw [firstOccur_cons]
      simp only [List.mem_cons, List.mem_filter, ih]
      constructor
      · rintro (h | ⟨h, -⟩)
        · exact Or.inl h
        · exact Or.inr h
      · rintro (h | h)
        · exact Or.inl h
        · by_cases hv : a = v
          · exact Or.inl hv
          · exact Or.inr ⟨h, by simpa using hv⟩

/-- Occurrences of a value plus occurrences of everything else make up the
whole list. -/
theorem count_add_filter_ne_length (xs : List String) (v : String) :
    xs.count v + (xs.filter (fun w => w ≠ v)).length = xs.length := by
  rw [List.count, ← List.countP_eq_length_filter]
  rw [List.length_eq_countP_add_countP (fun w : String => w == v) xs]
  congr 1
  apply List.countP_congr
  intro w _
  by_cases h : w = v <;> simp [h]

/-- Summing each distinct value's multiplicity recovers the column length
(proved by strong induction on the column length). -/
theorem firstOccur_count_sum_fuel (n : ℕ) :
    ∀ ys : List String, ys.length ≤ n →
      ((firstOccur ys).map (fun v => ys.count v)).sum = ys.length := by
  induction n with
  | zero =>
      intro ys h
      rw [List.length_eq_zero.mp (Nat.le_zero.mp h)]
      rfl
  | succ n ih =>
      intro ys h
      cases ys with
      | nil => rfl
      | cons v xs =>
          rw [firstOccur_cons_filter]
          simp only [List.map_cons, List.sum_cons]
          have hmap : (firstOccur (xs.filter (fun w => w ≠ v))).map (fun w => (v :: xs).count w)
              = (firstOccur (xs.filter (fun w => w ≠ v))).map
                  (fun w => (xs.filter (fun w => w ≠ v)).count w) := by
            apply List.map_congr_left
            intro w hw
            have hwv : w ≠ v := by
              have h1 := (firstOccur_mem _ w).mp hw
              have h2 := List.mem_filter.mp h1
              simpa using h2.2
            rw [List.count_cons, if_neg (by simpa using fun h => hwv h.symm), Nat.add_zero,
              List.count_filter (by simpa using hwv)]
          have hlen : (xs.filter (fun w => w ≠ v)).length ≤ n :=
            Nat.le_trans (List.length_filter_le _ _) (by simpa using h)
          rw [hmap, ih _ hlen, List.count_cons, if_pos (by simp), List.length_cons]
          have h3 := count_add_filter_ne_length xs v
          omega

/-- Summing each distinct value's multiplicity recovers the column length. -/
theorem firstOccur_count_sum (ys : List String) :
    ((firstOccur ys).map (fun v => ys.count v)).sum = ys.length :=
  firstOccur_count_sum_fuel ys.length ys (Nat.le_refl _)

/-- Counting a value among the non-null entries is counting its `some` in the
column. -/
theorem count_some_filterMap (xs : List (Option String)) (v : String) :
    (xs.filterMap id).count v = xs.count (some v) := by
  induction xs with
  | nil => rfl
  | cons x t ih =>
      cases x with
      | none => simpa [List.filterMap_cons, List.count_cons] using ih
      | some w => simp [List.filterMap_cons, List.count_cons, ih]

/-- Non-null entries plus null entries make up the whole column. -/
theorem filterMap_length_add_count_none (xs : List (Option String)) :
    (xs.filterMap id).length + xs.count none = xs.length := by
  induction xs with
  | nil => rfl
  | cons x t ih =>
      cases x with
      | none =>
          rw [show ((none :: t : List (Option String)).filterMap id) = t.filterMap id from rfl,
            List.count_cons, List.length_cons, if_pos (by simp)]
          omega
      | some w =>
          rw [show ((some w :: t : List (Option String)).filterMap id) = w :: t.filterMap id
              from rfl,
            List.count_cons, if_neg (by simp), List.length_cons, List.length_cons]
          omega

/-- Stable insertion only rearranges: the result is a permutation of consing. -/
theorem insertDesc_perm (a : String × ℕ) (l : List (String × ℕ)) :
    (insertDesc a l).Perm (a :: l) := by
  induction l with
  | nil => exact List.Perm.refl _
  | cons b t ih =>
      rw [insertDesc]
      by_cases h : b.2 < a.2
      · rw [if_pos h]
      · rw [if_neg h]
        exact (ih.cons b).trans (List.Perm.swap a b t)

/-- The fold of stable insertions permutes the input onto the accumulator. -/
theorem sortDesc_perm_aux (l acc : List (String × ℕ)) :
    (l.foldl (fun acc a => insertDesc a acc) acc).Perm (l ++ acc) := by
  induction l generalizing acc with
  | nil => simp
  | cons x t ih =>
      simp only [List.foldl_cons, List.cons_append]
      exact (ih _).trans ((List.Perm.append_left t (insertDesc_perm x acc)).trans
        List.perm_middle)

/-- The descending count sort is a permutation of the grouped counts. -/
theorem sortDesc_perm (l : List (String × ℕ)) : (sortDesc l).Perm l := by
  simpa using sortDesc_perm_aux l []

/-! ### C4 -/

/-- C4: for every region set and point set, the sum of the per-region counts
produced by aggregation plus the number of unassigned points equals the total
number of input points (unassigned points are excluded from the groups). -/
theorem counts_partition_total (areas : List Region) (df : List Point) :
    ((value_counts (planning_area_col areas df)).map Prod.snd).sum
      + (planning_area_col areas df).count none = df.length := by
  have hperm : (value_counts (planning_area_col areas df)).Perm
      (groupCounts (planning_area_col areas df)) := sortDesc_perm _
  have hsum := (hperm.map Prod.snd).sum_eq
  rw [hsum]
  have h1 : (groupCounts (planning_area_col areas df)).map Prod.snd
      = (firstOccur ((planning_area_col areas df).filterMap id)).map
          (fun v => (planning_area_col areas df).count (some v)) := by
    rw [groupCounts, List.map_map]
    rfl
  rw [h1]
  have h2 : (firstOccur ((planning_area_col areas df).filterMap id)).map
        (fun v => (planning_area_col areas df).count (some v))
      = (firstOccur ((planning_area_col areas df).filterMap id)).map
          (fun v => ((planning_area_col areas df).filterMap id).count v) := by
    apply List.map_congr_left
    intro w _
    rw [count_some_filterMap]
  rw [h2, firstOccur_count_sum, filterMap_length_add_count_none]
  simp [planning_area_col]

/-! ### Ranking: descending order with a stable tie-break -/

/-- Stable insertion preserves descending order by count. -/
theorem insertDesc_pairwise (a : String × ℕ) (l : List (String × ℕ))
    (h : l.Pairwise (fun x y => y.2 ≤ x.2)) :
    (insertDesc a l).Pairwise (fun x y => y.2 ≤ x.2) := by
  induction l with
  | nil => simp [insertDesc]
  | cons b t ih =>
      rw [insertDesc]
      by_cases hb : b.2 < a.2
      · rw [if_pos hb]
        refine List.Pairwise.cons ?_ h
        intro c hc
        rcases List.mem_cons.mp hc with rfl | hc
        · exact Nat.le_of_lt hb
        · exact Nat.le_trans (List.rel_of_pairwise_cons h hc) (Nat.le_of_lt hb)
      · rw [if_neg hb]
        refine List.Pairwise.cons ?_ (ih h.of_cons)
        intro c hc
        rcases List.mem_cons.mp ((insertDesc_perm a t).mem_iff.mp hc) with rfl | hc2
        · exact Nat.le_of_not_lt hb
        · exact List.rel_of_pairwise_cons h hc2

/-- Stability of one insertion: among entries of a given count, the inserted
entry lands last, and entries of other counts are untouched. -/
theorem insertDesc_filter_count (a : String × ℕ) (l : List (String × ℕ))
    (h : l.Pairwise (fun x y => y.2 ≤ x.2)) (c : ℕ) :
    (insertDesc a l).filter (fun p => p.2 == c)
      = if a.2 = c then l.filter (fun p => p.2 == c) ++ [a]
        else l.filter (fun p => p.2 == c) := by
  induction l with
  | nil =>
      by_cases hc : a.2 = c <;> simp [insertDesc, List.filter_cons, hc]
  | cons b t ih =>
      rw [insertDesc]
      by_cases hb : b.2 < a.2
      · rw [if_pos hb]
        by_cases hc : a.2 = c
        · have hempty : (b :: t).filter (fun p => p.2 == c) = [] := by
            rw [List.filter_eq_nil_iff]
            intro p hp
            rcases List.mem_cons.mp hp with rfl | hp
            · simp
              omega
            · have h2 := List.rel_of_pairwise_cons h hp
              simp
              omega
          rw [List.filter_cons_of_pos (by simp [hc]), hempty, if_pos hc]
          simp
        · rw [List.filter_cons_of_neg (by simp [hc]), if_neg hc]
      · rw [if_neg hb, List.filter_cons, ih h.of_cons]
        by_cases hbc : (b.2 == c) = true <;> by_cases hac : a.2 = c <;>
          simp [hbc, hac, List.filter_cons]

/-- The insertion fold keeps the accumulator sorted by count descending. -/
theorem sortDesc_pairwise_aux (l acc : List (String × ℕ))
    (hacc : acc.Pairwise (fun x y => y.2 ≤ x.2)) :
    (l.foldl (fun acc a => insertDesc a acc) acc).Pairwise (fun x y => y.2 ≤ x.2) := by
  induction l generalizing acc with
  | nil => exact hacc
  | cons x t ih => exact ih _ (insertDesc_pairwise x acc hacc)

/-- The ranked list is sorted by count descending. -/
theorem sortDesc_sorted (l : List (String × ℕ)) :
    (sortDesc l).Pairwise (fun x y => y.2 ≤ x.2) :=
  sortDesc_pairwise_aux l [] (List.Pairwise.nil)

/-- The insertion fold is stable: restricted to any fixed count, the output
lists the accumulator's entries then the input's entries, both in order. -/
theorem sortDesc_filter_aux (l acc : List (String × ℕ))
    (hacc : acc.Pairwise (fun x y => y.2 ≤ x.2)) (c : ℕ) :
    (l.foldl (fun acc a => insertDesc a acc) acc).filter (fun p => p.2 == c)
      = acc.filter (fun p => p.2 == c) ++ l.filter (fun p => p.2 == c) := by
  induction l generalizing acc with
  | nil => simp
  | cons x t ih =>
      rw [List.foldl_cons, ih _ (insertDesc_pairwise x acc hacc),
        insertDesc_filter_count x acc hacc c, List.filter_cons]
      by_cases hxc : x.2 = c
      · rw [if_pos hxc, if_pos (by simpa using hxc)]
        simp
      · rw [if_neg hxc, if_neg (by simpa using hxc)]

/-- Sorting is stable: restricted to any fixed count, the ranked list equals
the grouped list, preserving first-occurrence order among ties. -/
theorem sortDesc_filter (l : List (String × ℕ)) (c : ℕ) :
    (sortDesc l).filter (fun p => p.2 == c) = l.filter (fun p => p.2 == c) := by
  simpa using sortDesc_filter_aux l [] (List.Pairwise.nil) c

/-! ### C2 -/

/-- C2: for every assignment column, the ranked output of aggregation is a
permutation of the first-occurrence groups, sorted by count descending, and
among entries of any equal count the first-occurrence order of the groups is
preserved — a stable, deterministic tie-break. -/
theorem ranking_sorted_and_stable (xs : List (Option String)) :
    (value_counts xs).Pairwise (fun a b => b.2 ≤ a.2) ∧
    (value_counts xs).Perm (groupCounts xs) ∧
    ∀ c : ℕ, (value_counts xs).filter (fun p => p.2 == c)
      = (groupCounts xs).filter (fun p => p.2 == c) :=
  ⟨sortDesc_sorted _, sortDesc_perm _, fun c => sortDesc_filter _ c⟩

/-! ### C6 -/

/-- C6: for every input and caller-supplied K, the ranked list has
min(K, number of distinct matched regions) entries, each carrying a 1-based
rank equal to its position; K = 0 yields an empty ranked list, and the
enricher then returns an empty result and submits no lookup at all. -/
theorem top_k_truncation (areas : List Region) (df : List Point) (top_k : ℕ)
    (outcomes : ℕ → CallResult) (order : List ℕ) :
    (area_info areas df top_k).length
      = min top_k (groupCounts (planning_area_col areas df)).length ∧
    (∀ (i : ℕ) (e : AreaInfo), (area_info areas df top_k)[i]? = some e → e.idx = i + 1) ∧
    (top_k = 0 → area_info areas df top_k = [] ∧
      lookups_invoked (area_info areas df top_k) = [] ∧
      enrich outcomes (area_info areas df top_k) order = []) := by
  refine ⟨?_, ?_, ?_⟩
  · rw [area_info, List.length_map, List.enum_length, top_ten, List.length_take,
      value_counts, (sortDesc_perm _).length_eq]
  · intro i e h
    rw [area_info, List.getElem?_map, List.getElem?_enum] at h
    cases ht : (top_ten areas df top_k)[i]? with
    | none => rw [ht] at h; cases h
    | some a =>
        rw [ht] at h
        injection h with h
        rw [← h]
  · intro h0
    subst h0
    exact ⟨rfl, rfl, rfl⟩

/-- Witness for C6: K = 0 on the demo data yields an empty ranked list, no
submitted lookups, and an empty enrichment result. -/
theorem top_k_truncation_witness :
    area_info demoAreas demoDf 0 = [] ∧
    lookups_invoked (area_info demoAreas demoDf 0) = [] ∧
    enrich demoOutcomes (area_info demoAreas demoDf 0) [] = [] :=
  (top_k_truncation demoAreas demoDf 0 demoOutcomes []).2.2 rfl

/-! ### C7 -/

/-- Counting a name in the assignment column is the size of the set of rows
assigned to it. -/
theorem count_eq_filter_length (areas : List Region) (df : List Point) (v : String) :
    (planning_area_col areas df).count (some v)
      = (df.filter (fun row => get_planning_area row areas == some v)).length := by
  rw [planning_area_col, List.count, List.countP_map, ← List.countP_eq_length_filter]
  rfl

/-- C7: every entry of the ranked `area_info` list reports as its count the
size of the (non-empty) group of points assigned to its region, and as its
centroid the arithmetic mean of that group's latitudes and longitudes. -/
theorem centroid_is_group_mean (areas : List Region) (df : List Point) (top_k : ℕ)
    (e : AreaInfo) (he : e ∈ area_info areas df top_k) :
    e.cnt = (df.filter (fun row => get_planning_area row areas == some e.area)).length ∧
    df.filter (fun row => get_planning_area row areas == some e.area) ≠ [] ∧
    e.lat = ((df.filter (fun row => get_planning_area row areas == some e.area)).map
        Point.lat).sum
      / (df.filter (fun row => get_planning_area row areas == some e.area)).length ∧
    e.long = ((df.filter (fun row => get_planning_area row areas == some e.area)).map
        Point.long).sum
      / (df.filter (fun row => get_planning_area row areas == some e.area)).length := by
  obtain ⟨p, hp, rfl⟩ := List.mem_map.mp he
  have hsnd : p.2 ∈ top_ten areas df top_k := by
    have h1 := List.mem_map_of_mem Prod.snd hp
    rwa [List.enum_map_snd] at h1
  have hvc : p.2 ∈ value_counts (planning_area_col areas df) :=
    (List.take_sublist _ _).subset hsnd
  have hgc : p.2 ∈ groupCounts (planning_area_col areas df) :=
    (sortDesc_perm _).subset hvc
  obtain ⟨v, hv, hpv⟩ := List.mem_map.mp hgc
  have harea : p.2.1 = v := by rw [← hpv]
  have hcnt : p.2.2 = (planning_area_col areas df).count (some v) := by rw [← hpv]
  have hcount_pos : 0 < (planning_area_col areas df).count (some v) := by
    rw [← count_some_filterMap]
    exact List.count_pos_iff.mpr ((firstOccur_mem _ v).mp hv)
  refine ⟨?_, ?_, ?_, ?_⟩
  · show p.2.2 = _
    rw [hcnt, harea, count_eq_filter_length]
  · apply List.ne_nil_of_length_pos
    rw [harea, ← count_eq_filter_length]
    exact hcount_pos
  · show mean _ = _
    rw [mean, List.length_map]
  · show mean _ = _
    rw [mean, List.length_map]

/-- Witness for C7: on the demo data the top entry is region A and its
reported count equals the size of A's group of points. -/
theorem centroid_is_group_mean_witness :
    (2 : ℕ) = (demoDf.filter (fun row => get_planning_area row demoAreas == some "A")).length := by
  have h := centroid_is_group_mean demoAreas demoDf 2
    { idx := 1, area := "A", cnt := 2,
      lat := mean ((demoDf.filter
        (fun row => get_planning_area row demoAreas == some "A")).map Point.lat),
      long := mean ((demoDf.filter
        (fun row => get_planning_area row demoAreas == some "A")).map Point.long),
      link := gmap_link
        (mean ((demoDf.filter
          (fun row => get_planning_area row demoAreas == some "A")).map Point.lat))
        (mean ((demoDf.filter
          (fun row => get_planning_area row demoAreas == some "A")).map Point.long)) }
    (List.Mem.head _)
  exact h.1

/-! ### C8 -/

/-- C8: if the region fetch or the point fetch fails (exception, non-success
status, or malformed top-level payload), the run aborts with exit code 1 and
produces no output; conversely any produced output implies both fetches
succeeded — fetch failures are never downgraded to degraded data. -/
theorem fetch_failures_fatal (outcomes : ℕ → CallResult) (order : List ℕ) (top_k : ℕ) :
    (∀ (msg : String) (taxiResp : Except String (List (ℚ × ℚ))),
       main_pipeline (Except.error msg) taxiResp outcomes order top_k = Except.error 1) ∧
    (∀ (records : List (String × Except String Geom)) (msg : String),
       main_pipeline (Except.ok records) (Except.error msg) outcomes order top_k
         = Except.error 1) ∧
    (∀ (areasResp : Except String (List (String × Except String Geom)))
       (taxiResp : Except String (List (ℚ × ℚ))) (out : List (AreaInfo × String)),
       main_pipeline areasResp taxiResp outcomes order top_k = Except.ok out →
       (∃ records, areasResp = Except.ok records) ∧
       (∃ coords, taxiResp = Except.ok coords)) := by
  refine ⟨fun msg t => rfl, fun a msg => rfl, ?_⟩
  intro areasResp taxiResp out h
  cases areasResp with
  | error m => exact Except.noConfusion h
  | ok records =>
      cases taxiResp with
      | error m => exact Except.noConfusion h
      | ok coords => exact ⟨⟨records, rfl⟩, ⟨coords, rfl⟩⟩

/-- Witness for C8: a failing region fetch and a failing point fetch each
abort the demo run with exit code 1. -/
theorem fetch_failures_fatal_witness :
    main_pipeline (Except.error "areas down") (Except.ok [((0 : ℚ), (0 : ℚ))])
      demoOutcomes [] 3 = Except.error 1 ∧
    main_pipeline (Except.ok []) (Except.error "taxi down") demoOutcomes [] 3
      = Except.error 1 := by
  have h := fetch_failures_fatal demoOutcomes [] 3
  exact ⟨h.1 "areas down" _, h.2.1 [] "taxi down"⟩

/-! ### C9 -/

/-- C9: in every schedule of the enrichment thread pool with worker bound 2,
every reachable scheduler state has at most 2 lookups in flight, for any batch
size. -/
theorem worker_bound_never_exceeded (n : ℕ) (s : ExecState)
    (h : ExecReachable 2 (exec_start n) s) : s.running.length ≤ 2 := by
  induction h with
  | refl => exact Nat.zero_le 2
  | step hr hs ih =>
      cases hs with
      | start p f d i hm hw =>
          rw [List.length_cons]
          exact hw
      | finish p f d i hm =>
          exact Nat.le_trans (List.Sublist.length_le (List.erase_sublist i f)) ih

/-- Witness for C9: after the scheduler starts tasks 0 and 1 of a three-task
batch, two lookups are in flight, within the bound. -/
theorem worker_bound_never_exceeded_witness :
    (ExecState.mk [2] [1, 0] []).running.length ≤ 2 :=
  worker_bound_never_exceeded 3 ⟨[2], [1, 0], []⟩
    (ExecReachable.step
      (ExecReachable.step ExecReachable.refl
        (show ExecStep 2 (exec_start 3) ⟨[1, 2], [0], []⟩ from
          ExecStep.start [0, 1, 2] [] [] 0 (by decide) (by decide)))
      (show ExecStep 2 ⟨[1, 2], [0], []⟩ ⟨[2], [1, 0], []⟩ from
        ExecStep.start [1, 2] [0] [] 1 (by decide) (by decide)))
